import Mathlib

/-!
Verification of the `Filepath` safe type (SafelyTyped ts-filepath).

The development shallowly embeds:

* the POSIX path algebra (the external `path.posix` backend described in
  spec §6; the source delegates to it through the injected `pathApi`),
  modelled operation by operation on `List Char`;
* the `Filepath` value type, in its two source variants: the full class
  (which normalises its input in the constructor) and the `v1` class
  (which stores the input verbatim);
* the no-op validator `validateFilepathData` and the error path of
  construction;
* the lazily cached `parse()` method, as explicit state passing with an
  instrumentation counter for algebra invocations.
-/

namespace TsFilepath

/-! ### The POSIX path algebra, modelled on `List Char` -/

/-- Split a character list on `/`, keeping empty segments, matching the
behaviour of splitting a path string on its separator. -/
def splitOnSlash : List Char → List (List Char)
  | [] => [[]]
  | c :: rest =>
    let r := splitOnSlash rest
    if c = '/' then [] :: r
    else
      match r with
      | s :: ss => (c :: s) :: ss
      | [] => [[c]]

/-- Does the character list start with `/`? -/
def startsWithSlash : List Char → Bool
  | [] => false
  | c :: _ => c == '/'

/-- Does the character list end with `/`? -/
def endsWithSlash (cs : List Char) : Bool :=
  match cs.getLast? with
  | some c => c == '/'
  | none => false

/-- Segment resolution step of Node's `normalizeString`: drop empty and `.`
segments, let `..` pop the previous segment, and keep leading `..`
segments only when `allowAboveRoot` is set (i.e. for relative paths). -/
def normSegs (allowAboveRoot : Bool) (segs : List (List Char)) : List (List Char) :=
  segs.foldl
    (fun res seg =>
      if seg = [] ∨ seg = ['.'] then res
      else if seg = ['.', '.'] then
        match res.getLast? with
        | some last =>
          if last = ['.', '.'] then
            if allowAboveRoot then res ++ [seg] else res
          else res.dropLast
        | none => if allowAboveRoot then [seg] else []
      else res ++ [seg])
    []

/-- Re-join segments with `/` separators. -/
def joinSegs : List (List Char) → List Char
  | [] => []
  | [s] => s
  | s :: ss => s ++ '/' :: joinSegs ss

/-- Node's `path.posix.normalize`, on character lists: empty input becomes
`.`; otherwise resolve `.` and `..` segments, preserving a leading root
`/` and a trailing separator. -/
def posixNormalizeL (cs : List Char) : List Char :=
  if cs = [] then ['.']
  else
    let isAbs := startsWithSlash cs
    let trailing := endsWithSlash cs
    let body := joinSegs (normSegs (!isAbs) (splitOnSlash cs))
    if body = [] then
      if isAbs then ['/']
      else if trailing then ['.', '/']
      else ['.']
    else
      let body2 := if trailing then body ++ ['/'] else body
      if isAbs then '/' :: body2 else body2

/-- `path.posix.normalize` on strings. -/
def posixNormalize (s : String) : String :=
  (posixNormalizeL s.toList).asString

/-- Concatenate strings with `/` between them. -/
def joinStrings : List String → String
  | [] => ""
  | [a] => a
  | a :: rest => a ++ "/" ++ joinStrings rest

/-- Node's `path.posix.join`: drop zero-length arguments, concatenate the
rest with `/`, and normalise; with nothing left, return `.`. -/
def posixJoin (args : List String) : String :=
  let ne := args.filter (fun a => a ≠ "")
  if ne = [] then "." else posixNormalize (joinStrings ne)

/-- Drop all trailing `/` characters. -/
def dropTrailingSlashes (cs : List Char) : List Char :=
  (cs.reverse.dropWhile (fun c => c = '/')).reverse

/-- The characters after the last `/`. -/
def lastSegmentL (cs : List Char) : List Char :=
  (cs.reverse.takeWhile (fun c => c ≠ '/')).reverse

/-- Node's `path.posix.basename` without a suffix argument: the last
segment of the path, ignoring trailing separators. -/
def posixBasenameL (cs : List Char) : List Char :=
  lastSegmentL (dropTrailingSlashes cs)

/-- Node's `path.posix.basename`: the last segment, with the suffix `ext`
stripped when it is supplied, non-empty, a proper suffix of the segment,
and not the whole segment. -/
def posixBasename (p : String) (ext : Option String) : String :=
  let b := posixBasenameL p.toList
  match ext with
  | none => b.asString
  | some e =>
    let ec := e.toList
    if ec ≠ [] ∧ b ≠ ec ∧ ec.isSuffixOf b then
      (b.take (b.length - ec.length)).asString
    else b.asString

/-- Index of the last `.` in a segment, if any. -/
def lastDotIdx (seg : List Char) : Option Nat :=
  (seg.enum.filterMap (fun p => if p.2 = '.' then some p.1 else none)).getLast?

/-- Extension of a single path segment: from the last `.` to the end,
except that a leading `.` (a dotfile) and the special segment `..` carry
no extension. -/
def extOfSegment (seg : List Char) : List Char :=
  if seg = ['.', '.'] then []
  else
    match lastDotIdx seg with
    | none => []
    | some 0 => []
    | some i => seg.drop i

/-- Node's `path.posix.extname`: the extension of the final segment,
ignoring trailing separators. -/
def posixExtname (p : String) : String :=
  (extOfSegment (posixBasenameL p.toList)).asString

/-- The scan of Node's `path.posix.dirname`: the index (≥ 1) of the last
`/` that precedes the final run of non-separator characters.  The input is
the indexed character list, reversed, with index 0 removed. -/
def dirnameEndAux : List (Nat × Char) → Bool → Option Nat
  | [], _ => none
  | (i, c) :: rest, matchedSlash =>
    if c = '/' then
      if matchedSlash then dirnameEndAux rest matchedSlash
      else some i
    else dirnameEndAux rest false

/-- Node's `path.posix.dirname`: everything before the final segment;
`/` for root-only results of absolute paths, `.` for separator-free
relative paths. -/
def posixDirname (p : String) : String :=
  if p = "" then "."
  else
    let cs := p.toList
    let hasRoot := startsWithSlash cs
    match dirnameEndAux (cs.enum.drop 1).reverse true with
    | none => if hasRoot then "/" else "."
    | some e =>
      if hasRoot ∧ e = 1 then "//"
      else (cs.take e).asString

/-- Node's `path.posix.isAbsolute`: a non-empty string starting with `/`. -/
def posixIsAbsolute (p : String) : Bool :=
  startsWithSlash p.toList

/-- The result of decomposing a path (`path.ParsedPath`): all fields are
strings and any of them may be empty. -/
structure ParsedPath where
  root : String
  dir : String
  base : String
  name : String
  ext : String
deriving DecidableEq

/-- Node's `path.posix.parse`: split a path into root, directory, final
segment, segment name and extension, ignoring trailing separators. -/
def posixParse (p : String) : ParsedPath :=
  if p = "" then ⟨"", "", "", "", ""⟩
  else
    let cs := p.toList
    let isAbs := startsWithSlash cs
    let root := if isAbs then "/" else ""
    let trimmed := dropTrailingSlashes cs
    let b := lastSegmentL trimmed
    let e := extOfSegment b
    let nm := b.take (b.length - e.length)
    let rest := trimmed.take (trimmed.length - b.length)
    let dir :=
      if rest = [] then root
      else if rest.dropLast = [] then (if isAbs then "/" else "")
      else (rest.dropLast).asString
    ⟨root, dir, b.asString, nm.asString, e.asString⟩

/-- The accumulation pass of Node's `path.posix.resolve`: walk the
arguments from right to left, prepending each non-empty one, and stop as
soon as an absolute path has been formed. -/
def posixResolveAuxL (paths : List (List Char)) : List Char × Bool :=
  paths.foldr
    (fun p acc =>
      if acc.2 then acc
      else if p = [] then acc
      else (p ++ '/' :: acc.1, startsWithSlash p))
    ([], false)

/-- Node's `path.posix.resolve` on character lists, with the ambient
working directory `cwd` supplied explicitly as the implicit final
fallback argument. -/
def posixResolveL (cwd : List Char) (args : List (List Char)) : List Char :=
  let r := posixResolveAuxL (cwd :: args)
  let body := joinSegs (normSegs (!r.2) (splitOnSlash r.1))
  if r.2 then (if body = [] then ['/'] else '/' :: body)
  else (if body = [] then ['.'] else body)

/-- `path.posix.resolve` on strings. -/
def posixResolve (cwd : String) (args : List String) : String :=
  (posixResolveL cwd.toList (args.map String.toList)).asString

/-! ### The path algebra capability set and the `Filepath` value type -/

/-- `PathApi` is the pluggable path-manipulation backend bound to a
`Filepath` at construction time (spec §6); only the operations exercised
by the claims are modelled. -/
structure PathApi where
  normalize : String → String
  join : List String → String
  dirname : String → String
  basename : String → Option String → String
  extname : String → String
  isAbsolute : String → Bool
  parse : String → ParsedPath
  resolve : List String → String

/-- The POSIX binding of the path algebra, with the ambient working
directory `cwd` baked into `resolve`. -/
def posixPathApi (cwd : String) : PathApi where
  normalize := posixNormalize
  join := posixJoin
  dirname := posixDirname
  basename := posixBasename
  extname := posixExtname
  isAbsolute := posixIsAbsolute
  parse := posixParse
  resolve := posixResolve cwd

/-- The single error kind of the library: `InvalidFilepathData`,
carrying the offending value. -/
inductive AppError where
  | invalidFilepathData (offending : String)
deriving DecidableEq

/-- `validateFilepathData()`: the library's validator.  Faithful to the
source, it returns `input` unconditionally — there is currently no
meaningful syntactic check to perform. -/
def validateFilepathData (_dataPath : String) (input : String) : Except AppError String :=
  Except.ok input

/-- `Filepath`: the immutable value — the stored path string, the
optional `base` anchor, and the bound path algebra. -/
structure Filepath where
  value : String
  base : Option String
  api : PathApi

/-- The `Filepath` constructor of the full class (`part_002`): it
normalises `input` via the bound algebra before storing it. -/
def mkFilepath (api : PathApi) (base : Option String) (input : String) : Filepath :=
  ⟨api.normalize input, base, api⟩

/-- The `Filepath` constructor of the `src/v1` class: it stores `input`
verbatim, with no normalisation. -/
def mkFilepathV1 (api : PathApi) (base : Option String) (input : String) : Filepath :=
  ⟨input, base, api⟩

/-- Construction of the full class with the error path made explicit:
`mustBeFilepathData` runs the validator on the normalised input and an
`Except.error` result stands for an invocation of the `onError` handler.
The `mustBeFilepathData` wrapper itself is not under `src/`; its
validator-then-onError shape is modelled from spec §4.1 step 2. -/
def mkFilepathChecked (api : PathApi) (base : Option String) (input : String) :
    Except AppError Filepath :=
  match validateFilepathData "." (api.normalize input) with
  | Except.ok v => Except.ok ⟨v, base, api⟩
  | Except.error e => Except.error e

/-- Construction of the `src/v1` class with the error path made
explicit; the raw input goes to the validator unnormalised. -/
def mkFilepathV1Checked (api : PathApi) (base : Option String) (input : String) :
    Except AppError Filepath :=
  match validateFilepathData "." input with
  | Except.ok v => Except.ok ⟨v, base, api⟩
  | Except.error e => Except.error e

/-- `Filepath.basename()`: delegate to the bound algebra on the stored
value. -/
def Filepath.basename (p : Filepath) (ext : Option String) : String :=
  p.api.basename p.value ext

/-- `Filepath.extname()`: delegate to the bound algebra. -/
def Filepath.extname (p : Filepath) : String :=
  p.api.extname p.value

/-- `Filepath.isAbsolute()`: delegate to the bound algebra. -/
def Filepath.isAbsolute (p : Filepath) : Bool :=
  p.api.isAbsolute p.value

/-- `Filepath.dirname()` with explicit overrides: the parent path is
computed with this value's own algebra, and the new `Filepath` is built
with the (possibly overridden) algebra and base. -/
def Filepath.dirnameWith (p : Filepath) (api2 : PathApi) (base2 : Option String) : Filepath :=
  mkFilepath api2 base2 (p.api.dirname p.value)

/-- `Filepath.dirname()` without overrides: the options default to this
value's own `base` and algebra. -/
def Filepath.dirname (p : Filepath) : Filepath :=
  p.dirnameWith p.api p.base

/-- `Filepath.join()`: combine this value and the given segments with the
algebra's join, and construct a new `Filepath` carrying this value's
`base` and algebra forward. -/
def Filepath.join (p : Filepath) (paths : List String) : Filepath :=
  mkFilepath p.api p.base (p.api.join (p.value :: paths))

/-- The arguments a zero-segment `resolve()` hands to the algebra: the
value's own string, resolved against its `base` when one is recorded. -/
def resolveArgs (base : Option String) (value : String) : List String :=
  match base with
  | some b => [b, value]
  | none => [value]

/-- Modelled from the spec: `Filepath.resolve()` is documented in the
API reference but its implementation is not among the source files.
Per spec §4.3: with segments, right-to-left absolute assembly of this
value and the segments per the algebra's resolve rule; with zero
segments, this value's own string is resolved against its `base` (or,
with no `base`, against the ambient working directory alone); the
result is constructed as a new `Filepath` carrying `base` and the
algebra forward. -/
def Filepath.resolve (p : Filepath) (segments : List String) : Filepath :=
  let args :=
    match segments with
    | [] => resolveArgs p.base p.value
    | _ => p.value :: segments
  mkFilepath p.api p.base (p.api.resolve args)

/-! ### The lazily cached `parse()` method, as explicit state passing -/

/-- A `Filepath` instance together with its private mutable cache cell
`#_parts` and an instrumentation counter of how many times the bound
algebra's decomposition has been invoked. -/
structure FilepathInst where
  fp : Filepath
  cachedParts : Option ParsedPath
  parseCalls : Nat

/-- A freshly constructed instance: the cache cell is unset and the
algebra's decomposition has not been invoked. -/
def FilepathInst.fresh (p : Filepath) : FilepathInst :=
  ⟨p, none, 0⟩

/-- `Filepath.parse()`: return the cached decomposition when the cache
cell is set; otherwise invoke the algebra once, stash the result, and
return it. -/
def FilepathInst.parse (s : FilepathInst) : ParsedPath × FilepathInst :=
  match s.cachedParts with
  | some parts => (parts, s)
  | none =>
    let parts := s.fp.api.parse s.fp.value
    (parts, { s with cachedParts := some parts, parseCalls := s.parseCalls + 1 })

/-- Iterate `parse()` on an instance `n` times, keeping only the state. -/
def iterParse (s : FilepathInst) : Nat → FilepathInst
  | 0 => s
  | n + 1 => (iterParse s n).parse.2

/-- `applyFunctionalOptions` (external helper from core-types): apply the
user-supplied functional options left to right. -/
def applyFunctionalOptions (v : Filepath) (fnOpts : List (Filepath → Filepath)) : Filepath :=
  fnOpts.foldl (fun acc f => f acc) v

/-- `makeFilepath()`: the smart constructor — build a `Filepath` via the
`src/v1` constructor and apply the functional options to it. -/
def makeFilepath (api : PathApi) (base : Option String) (input : String)
    (fnOpts : List (Filepath → Filepath)) : Filepath :=
  applyFunctionalOptions (mkFilepathV1 api base input) fnOpts

/-! ### Helper lemmas -/

/-- A non-empty character list renders to a non-empty string. -/
theorem asString_ne_empty (l : List Char) (h : l ≠ []) : l.asString ≠ "" := by
  intro hc
  apply h
  have h2 := congrArg String.data hc
  simpa using h2

/-- Normalisation never produces the empty character list: every branch
of the algorithm returns `.`, `/`, `./` or a non-empty body. -/
theorem posixNormalizeL_ne_nil (cs : List Char) : posixNormalizeL cs ≠ [] := by
  unfold posixNormalizeL
  split
  · simp
  · dsimp only
    split
    · split
      · simp
      · split <;> simp
    · split
      · simp
      · split <;> simp_all

/-- Normalisation never produces the empty string. -/
theorem posixNormalize_ne_empty (s : String) : posixNormalize s ≠ "" :=
  asString_ne_empty _ (posixNormalizeL_ne_nil _)

/-- Normalisation preserves a leading `/`. -/
theorem posixNormalizeL_head (cs : List Char) (h : startsWithSlash cs = true) :
    startsWithSlash (posixNormalizeL cs) = true := by
  have hne : cs ≠ [] := by
    intro hc
    subst hc
    simp [startsWithSlash] at h
  unfold posixNormalizeL
  simp only [if_neg hne, h]
  split <;> simp [startsWithSlash]

/-- The accumulation pass of `resolve` reports an absolute result
whenever the working directory, its final fallback, is absolute. -/
theorem posixResolveAuxL_abs (cwd : List Char) (args : List (List Char))
    (h : startsWithSlash cwd = true) : (posixResolveAuxL (cwd :: args)).2 = true := by
  have hne : cwd ≠ [] := by
    intro hc
    subst hc
    simp [startsWithSlash] at h
  unfold posixResolveAuxL
  rw [List.foldr_cons]
  split
  · assumption
  · simp_all

/-- `resolve` against an absolute working directory yields a path with a
leading `/`. -/
theorem posixResolveL_head (cwd : List Char) (args : List (List Char))
    (h : startsWithSlash cwd = true) :
    startsWithSlash (posixResolveL cwd args) = true := by
  have h2 := posixResolveAuxL_abs cwd args h
  unfold posixResolveL
  simp only [h2]
  split
  · split <;> rfl
  · simp_all

/-- Any number of `parse()` calls on a fresh instance leaves the
immutable part untouched and the cache cell either unset with no
algebra invocations, or holding the decomposition of the value with
exactly one invocation. -/
theorem iterParse_fresh_invariant (p : Filepath) (n : Nat) :
    (iterParse (FilepathInst.fresh p) n).fp = p ∧
    ((iterParse (FilepathInst.fresh p) n).cachedParts = none ∧
        (iterParse (FilepathInst.fresh p) n).parseCalls = 0 ∨
      (iterParse (FilepathInst.fresh p) n).cachedParts = some (p.api.parse p.value) ∧
        (iterParse (FilepathInst.fresh p) n).parseCalls = 1) := by
  induction n with
  | zero => exact ⟨rfl, Or.inl ⟨rfl, rfl⟩⟩
  | succ n ih =>
    obtain ⟨hfp, hc⟩ := ih
    simp only [iterParse]
    rcases hc with ⟨h1, h2⟩ | ⟨h1, h2⟩ <;>
      simp [FilepathInst.parse, h1, h2, hfp]

/-- One `parse()` call on a state satisfying the cache invariant returns
the decomposition of the value, performs at most one algebra invocation
in total, and leaves the cache set to that decomposition. -/
theorem parse_on_invariant (p : Filepath) (s : FilepathInst)
    (hfp : s.fp = p)
    (hc : s.cachedParts = none ∧ s.parseCalls = 0 ∨
      s.cachedParts = some (p.api.parse p.value) ∧ s.parseCalls = 1) :
    s.parse.1 = p.api.parse p.value ∧ s.parse.2.parseCalls ≤ 1 ∧
    s.parse.2.cachedParts = some (p.api.parse p.value) := by
  rcases hc with ⟨h1, h2⟩ | ⟨h1, h2⟩ <;>
    simp [FilepathInst.parse, h1, h2, hfp]

/-! ### The claims -/

/-- Claim C1 (amended): the full-class constructor stores the algebra's
normalisation of its input, while the `src/v1` constructor stores the
raw input verbatim — only the former satisfies `value = normalize(s)`
for all inputs. -/
theorem c1_normalization_per_variant (api : PathApi) (b : Option String) (s : String) :
    (mkFilepath api b s).value = api.normalize s ∧ (mkFilepathV1 api b s).value = s :=
  ⟨rfl, rfl⟩

/-- Claim C1 counterexample: the `src/v1` constructor bound to the POSIX
algebra stores `"a/../b"` verbatim, which differs from its
normalisation `"b"`, so construction does not always normalise. -/
theorem c1_counterexample :
    ¬ ((mkFilepathV1 (posixPathApi "/") none "a/../b").value
        = (posixPathApi "/").normalize "a/../b") := by decide

/-- Claim C2: the two constructor variants are observably different at
input `"a/../b"` under the POSIX algebra — one stores `"b"`, the other
`"a/../b"`. -/
theorem c2_variants_observably_differ :
    (mkFilepath (posixPathApi "/") none "a/../b").value
      ≠ (mkFilepathV1 (posixPathApi "/") none "a/../b").value := by decide

/-- Claim C3: the validator returns every input unchanged, so checked
construction always succeeds under either variant and the `onError`
handler (the `Except.error` branch) is never invoked. -/
theorem c3_validator_never_errors (dataPath input : String) (api : PathApi) (b : Option String) :
    validateFilepathData dataPath input = Except.ok input ∧
    mkFilepathChecked api b input = Except.ok (mkFilepath api b input) ∧
    mkFilepathV1Checked api b input = Except.ok (mkFilepathV1 api b input) :=
  ⟨rfl, rfl, rfl⟩

/-- Claim C4: `join` and `dirname` (without overrides) propagate the
source value's `base` and path algebra unchanged to the derived
`Filepath`. -/
theorem c4_base_and_api_propagation (p : Filepath) (segs : List String) :
    (p.join segs).base = p.base ∧ (p.join segs).api = p.api ∧
    p.dirname.base = p.base ∧ p.dirname.api = p.api :=
  ⟨rfl, rfl, rfl, rfl⟩

/-- Claim C5: starting from a fresh instance, every `parse()` call along
any lifetime returns the decomposition of the instance's immutable
string value (so repeated calls are structurally equal), the algebra's
decomposition is invoked at most once, the cache cell afterwards holds
exactly that decomposition, and the immutable part never changes. -/
theorem c5_parse_idempotent_cached (p : Filepath) (n : Nat) :
    (iterParse (FilepathInst.fresh p) n).parse.1 = p.api.parse p.value ∧
    (iterParse (FilepathInst.fresh p) n).parse.2.parseCalls ≤ 1 ∧
    (iterParse (FilepathInst.fresh p) n).parse.2.cachedParts = some (p.api.parse p.value) ∧
    (iterParse (FilepathInst.fresh p) n).fp = p := by
  obtain ⟨hfp, hc⟩ := iterParse_fresh_invariant p n
  obtain ⟨ha, hb, hcc⟩ := parse_on_invariant p _ hfp hc
  exact ⟨ha, hb, hcc, hfp⟩

/-- Claim C6: under the POSIX algebra, `join` never produces an empty
string value, and when the value and every joined segment are empty the
result collapses to the current-directory token `.`. -/
theorem c6_join_never_empty (cwd v : String) (b : Option String) (segs : List String) :
    (Filepath.join ⟨v, b, posixPathApi cwd⟩ segs).value ≠ "" ∧
    (Filepath.join ⟨"", none, posixPathApi cwd⟩ ["", ""]).value = "." :=
  ⟨posixNormalize_ne_empty _, rfl⟩

/-- Claim C7: `basename` strips a supplied suffix exactly when it
matches: `.ts` is stripped from `example.ts`, `.php` is ignored with no
error, under both constructor variants. -/
theorem c7_basename_suffix_stripping :
    ((mkFilepath (posixPathApi "/") none "example.ts").basename (some ".ts") = "example") ∧
    ((mkFilepath (posixPathApi "/") none "example.ts").basename (some ".php") = "example.ts") ∧
    ((mkFilepathV1 (posixPathApi "/") none "example.ts").basename (some ".ts") = "example") ∧
    ((mkFilepathV1 (posixPathApi "/") none "example.ts").basename (some ".php") = "example.ts") := by
  decide

/-- Claim C8: `extname` returns the empty string for the dotfile
`.bashrc` and `.c` for `a.b.c`. -/
theorem c8_extname_edge_cases :
    ((mkFilepath (posixPathApi "/") none ".bashrc").extname = "") ∧
    ((mkFilepath (posixPathApi "/") none "a.b.c").extname = ".c") := by
  decide

/-- Claim C9: a zero-segment `resolve()` resolves the value's own string
against its `base` (or the ambient working directory alone when there is
no `base`), and — the working directory being absolute — the resulting
`Filepath` is always absolute. -/
theorem c9_resolve_zero_segments_absolute (cwd v : String) (b : Option String)
    (h : posixIsAbsolute cwd = true) :
    (Filepath.resolve ⟨v, b, posixPathApi cwd⟩ []).value
      = posixNormalize (posixResolve cwd (resolveArgs b v)) ∧
    (Filepath.resolve ⟨v, b, posixPathApi cwd⟩ []).isAbsolute = true := by
  refine ⟨rfl, ?_⟩
  show startsWithSlash
      (posixNormalizeL (posixResolveL cwd.toList ((resolveArgs b v).map String.toList))) = true
  exact posixNormalizeL_head _ (posixResolveL_head _ _ h)

/-- Claim C9 witness: the property instantiated at a concrete absolute
working directory, value and base. -/
theorem c9_witness :
    posixIsAbsolute "/cwd" = true ∧
    ((Filepath.resolve ⟨"file", some "/base", posixPathApi "/cwd"⟩ []).value
        = posixNormalize (posixResolve "/cwd" (resolveArgs (some "/base") "file")) ∧
     (Filepath.resolve ⟨"file", some "/base", posixPathApi "/cwd"⟩ []).isAbsolute = true) :=
  ⟨by decide, c9_resolve_zero_segments_absolute "/cwd" "file" (some "/base") (by decide)⟩

/-- Claim C10: `makeFilepath` with no functional options returns a
`Filepath` with the same string value, `base` and path algebra as the
one built by invoking the `src/v1` constructor directly. -/
theorem c10_makeFilepath_eq_constructor (api : PathApi) (b : Option String) (input : String) :
    (makeFilepath api b input []).value = (mkFilepathV1 api b input).value ∧
    (makeFilepath api b input []).base = (mkFilepathV1 api b input).base ∧
    (makeFilepath api b input []).api = (mkFilepathV1 api b input).api :=
  ⟨rfl, rfl, rfl⟩

end TsFilepath
